import Mathlib

/-!
Shallow embedding of the Kafka client abstraction layer
(`libraries/apache/kafka.py` of the distributed-logging-system repository).

Python dictionaries are modelled as insertion-ordered association lists,
exceptions as explicit sum types (`PyOutcome`, `Except`), wall-clock time as
an explicit `Int` parameter, and the infinite `poll_and_process` loop as a
step function over a finite list of poll events.
-/

namespace DLS

/-- The metrics registry state: `defaultdict(int)` modelled as an
insertion-ordered association list from counter name to integer. -/
abbrev Metrics := List (String × Int)

/-- Python `dict.get(key, 0)`: lookup without inserting, defaulting to 0.
Used by `KafkaMetrics.get`. -/
def dictGet (m : Metrics) (k : String) : Int :=
  match m with
  | [] => 0
  | (k2, v) :: rest => if k2 = k then v else dictGet rest k

/-- The keys of the registry, in insertion order. -/
def dictKeys (m : Metrics) : List String := m.map Prod.fst

/-- Structural copy of the mapping, as built by Python `dict(self.metrics)`
in `KafkaMetrics.snapshot`. -/
def dictCopy : Metrics → Metrics
  | [] => []
  | e :: rest => e :: dictCopy rest

/-- `KafkaMetrics.inc`: `self.metrics[key] += value` on a `defaultdict(int)`;
an absent key is created with default 0 and then incremented. -/
def KafkaMetrics.inc (m : Metrics) (k : String) (v : Int) : Metrics :=
  match m with
  | [] => [(k, v)]
  | (k2, x) :: rest =>
      if k2 = k then (k2, x + v) :: rest else (k2, x) :: KafkaMetrics.inc rest k v

/-- `KafkaMetrics.get`: `self.metrics.get(key, 0)`; returns the value and the
(unchanged) registry state. -/
def KafkaMetrics.get (m : Metrics) (k : String) : Int × Metrics :=
  (dictGet m k, m)

/-- `KafkaMetrics.snapshot`: `dict(self.metrics)`; returns a copy of the
mapping and the (unchanged) registry state. -/
def KafkaMetrics.snapshot (m : Metrics) : Metrics × Metrics :=
  (dictCopy m, m)

/-- A sequence of `inc(key, value)` calls applied to a registry. -/
def runIncs (m : Metrics) (ops : List (String × Int)) : Metrics :=
  ops.foldl (fun acc op => KafkaMetrics.inc acc op.1 op.2) m

/-- Outcome of running a Python operation whose body may raise: it either
returns a value, raises a `KafkaException`, or raises some other `Exception`.
The exception constructors carry the metrics state at the raise point. -/
inductive PyOutcome (α : Type) where
  | ok (a : α)
  | kafkaExc (m : Metrics)
  | exc (m : Metrics)

/-- The `kafka_error_handler` decorator: on a normal return it passes the
wrapped function's value (and metrics) through; on `KafkaException` it
increments `kafka_errors` and returns `None`; on any other `Exception` it
increments `general_errors` and returns `None`. It never re-raises, which the
model reflects by returning `Option` rather than an exception outcome. -/
def kafka_error_handler {α : Type} : PyOutcome (α × Metrics) → Option α × Metrics
  | .ok (a, m) => (some a, m)
  | .kafkaExc m => (none, KafkaMetrics.inc m "kafka_errors" 1)
  | .exc m => (none, KafkaMetrics.inc m "general_errors" 1)

/-- A consumed Kafka `Message`: topic, partition, offset, optional key bytes
and optional value bytes (bytes modelled as `String`, `none` = Python
`None`). -/
structure Message where
  topic : String
  partition : Int
  offset : Int
  key : Option String
  value : Option String
deriving DecidableEq, Repr

/-- `KafkaProcessRecordResponse`: correlation id, success flag, payload. -/
structure KafkaProcessRecordResponse where
  message_id : String
  status : Bool
  data : List (String × String)
deriving DecidableEq, Repr

/-- A `KafkaBatchManagerBaseAbstract` instance: the pre and post batch hooks. -/
structure KafkaBatchManager where
  pre_process_records_batch : List Message → List Message
  post_process_records_batch :
    List Message → List KafkaProcessRecordResponse → List KafkaProcessRecordResponse

/-- `multiprocessing.Pool.map` of the per-record handler over a batch: all
results are collected in input order; if any handler raises, the exception is
re-raised in the parent (modelled as the `Except.error` case). -/
def poolMap (f : Message → Except String KafkaProcessRecordResponse) :
    List Message → Except String (List KafkaProcessRecordResponse)
  | [] => .ok []
  | r :: rs =>
      match f r with
      | .error e => .error e
      | .ok resp =>
          match poolMap f rs with
          | .error e => .error e
          | .ok resps => .ok (resp :: resps)

/-- `sum([1 for record in response if record.status])`. -/
def successCount (response : List KafkaProcessRecordResponse) : Nat :=
  (response.filter fun r => r.status).length

/-- `KafkaRecordConsumerBaseImpl.process_records`: optional pre-processing,
parallel map of `process_single_record` over the records, optional
post-processing, and the count of responses whose status flag is true. A
handler exception propagates out (the `pool.map` call re-raises it). -/
def process_records (bm : Option KafkaBatchManager)
    (f : Message → Except String KafkaProcessRecordResponse)
    (records : List Message) : Except String Nat :=
  let records :=
    match bm with
    | some b => b.pre_process_records_batch records
    | none => records
  match poolMap f records with
  | .error e => .error e
  | .ok response =>
      let response :=
        match bm with
        | some b => b.post_process_records_batch records response
        | none => response
      .ok (successCount response)

/-- `KafkaConsumerConfig` (floats modelled as `Int`). -/
structure KafkaConsumerConfig where
  group_id : String
  bootstrap_servers : String
  auto_offset_reset : String
  enable_auto_commit : Bool
  poll_timeout : Int
  batch_size : Nat
  process_count : Nat
  checkpoint_freq_in_sec : Int
deriving DecidableEq, Repr

/-- The mutable state of one `poll_and_process` run: the pending batch, the
checkpoint timer, the number of `commit()` calls issued, the log of batches
handed to the record processor, and the metrics registry. -/
structure LoopState where
  batch : List Message
  last_checkpoint_time : Int
  commits : Nat
  dispatches : List (List Message)
  metrics : Metrics
deriving DecidableEq, Repr

/-- What one `consumer.poll(...)` call yielded: nothing within the timeout,
a message carrying a broker error, or a good message. -/
inductive PollEvent where
  | noMsg
  | errMsg
  | msg (m : Message)
deriving DecidableEq, Repr

/-- One iteration of the `while True` loop of
`KafkaConsumerClient.poll_and_process`, at wall-clock time `now`. A `None`
poll result and an errored message each `continue`, skipping the rest of the
iteration body, so the checkpoint condition is only evaluated on iterations
that consumed a good message. -/
def pollStep (cfg : KafkaConsumerConfig) (s : LoopState) (ev : PollEvent)
    (now : Int) : LoopState :=
  match ev with
  | .noMsg => s
  | .errMsg => { s with metrics := KafkaMetrics.inc s.metrics "consumer_errors" 1 }
  | .msg m =>
      let s1 : LoopState :=
        { s with batch := s.batch ++ [m],
                 metrics := KafkaMetrics.inc s.metrics "messages_consumed" 1 }
      let s2 : LoopState :=
        if cfg.batch_size ≤ s1.batch.length then
          { s1 with dispatches := s1.dispatches ++ [s1.batch], batch := [],
                    metrics := KafkaMetrics.inc s1.metrics "batches_processed" 1 }
        else s1
      if cfg.checkpoint_freq_in_sec < now - s2.last_checkpoint_time then
        { s2 with commits := s2.commits + 1, last_checkpoint_time := now }
      else s2

/-- Run the poll loop over a finite trace of timed poll events. -/
def runLoop (cfg : KafkaConsumerConfig) (s : LoopState) :
    List (PollEvent × Int) → LoopState
  | [] => s
  | (ev, t) :: evs => runLoop cfg (pollStep cfg s ev t) evs

/-- A trace of successfully polled messages, each with its arrival time. -/
def msgEvents (ps : List (Message × Int)) : List (PollEvent × Int) :=
  ps.map fun p => (PollEvent.msg p.1, p.2)

/-- Pure batching transition: append one message to the pending batch and
dispatch the batch when it reaches size `N`. -/
def feedOne (N : Nat) (st : List Message × List (List Message)) (m : Message) :
    List Message × List (List Message) :=
  let acc := st.1 ++ [m]
  if N ≤ acc.length then ([], st.2 ++ [acc]) else (acc, st.2)

/-- Feed a list of messages through the batching transition. -/
def feedAll (N : Nat) (st : List Message × List (List Message))
    (ms : List Message) : List Message × List (List Message) :=
  ms.foldl (feedOne N) st

/-- Python truthiness of an optional bytes value: `None` and empty bytes are
falsy, as in `failed_message.key() if failed_message.key() else None`. -/
def pyTruthy : Option String → Bool
  | none => false
  | some s => s != ""

/-- The `data` dict built by `KafkaDLQProducer.send_to_dlq`. -/
structure DLQEnvelope where
  topic : String
  partition : Int
  offset : Int
  key : Option String
  value : Option String
  reason : String
  timestamp : Int
deriving DecidableEq, Repr

/-- The envelope construction in `send_to_dlq`: failed message fields are
copied, but a falsy (absent or empty) key or value is mapped to `None`;
`reason` is taken verbatim and `timestamp` is the current wall-clock time. -/
def mkDLQData (m : Message) (reason : String) (now : Int) : DLQEnvelope :=
  { topic := m.topic
    partition := m.partition
    offset := m.offset
    key := if pyTruthy m.key then m.key else none
    value := if pyTruthy m.value then m.value else none
    reason := reason
    timestamp := now }

/-- Outcome of the downstream `producer.produce` plus `producer.flush` pair. -/
inductive PublishOutcome where
  | ok
  | kafkaExc (e : String)
  | exc (e : String)
deriving DecidableEq, Repr

/-- The body of `send_to_dlq` before the decorator: build the envelope,
publish it, and only after a successful publish increment `dlq_messages`.
A raising publish leaves the metrics untouched at the raise point. -/
def send_to_dlq_body (m : Metrics) (msg : Message) (reason : String)
    (now : Int) (publish : DLQEnvelope → PublishOutcome) :
    PyOutcome (DLQEnvelope × Metrics) :=
  let data := mkDLQData msg reason now
  match publish data with
  | .ok => .ok (data, KafkaMetrics.inc m "dlq_messages" 1)
  | .kafkaExc _ => .kafkaExc m
  | .exc _ => .exc m

/-- `KafkaDLQProducer.send_to_dlq`: the body wrapped in
`kafka_error_handler`. Returns the envelope (when one was published) and the
final metrics state. -/
def send_to_dlq (m : Metrics) (msg : Message) (reason : String) (now : Int)
    (publish : DLQEnvelope → PublishOutcome) : Option DLQEnvelope × Metrics :=
  kafka_error_handler (send_to_dlq_body m msg reason now publish)

/-! Concrete sample data used by the witness and counterexample theorems. -/

/-- Sample message A. -/
def msgA : Message := { topic := "A", partition := 0, offset := 10, key := some "kA", value := some "vA" }

/-- Sample message B. -/
def msgB : Message := { topic := "B", partition := 0, offset := 11, key := some "kB", value := some "vB" }

/-- Sample message C. -/
def msgC : Message := { topic := "C", partition := 1, offset := 12, key := none, value := some "vC" }

/-- Sample message D. -/
def msgD : Message := { topic := "D", partition := 1, offset := 13, key := none, value := some "vD" }

/-- A message whose key is empty bytes (truthiness-falsy but not `None`). -/
def msgEmptyKey : Message := { topic := "t", partition := 0, offset := 7, key := some "", value := some "v" }

/-- A successful per-record response. -/
def respT : KafkaProcessRecordResponse := { message_id := "ok", status := true, data := [] }

/-- A failed per-record response. -/
def respF : KafkaProcessRecordResponse := { message_id := "bad", status := false, data := [] }

/-- A handler that returns a failed response for topic "A" and a successful
one otherwise (it catches its own errors). -/
def hdl3 : Message → Except String KafkaProcessRecordResponse :=
  fun m => if m.topic = "A" then .ok respF else .ok respT

/-- A handler that raises for topic "A" and succeeds otherwise. -/
def hdlRaise : Message → Except String KafkaProcessRecordResponse :=
  fun m => if m.topic = "A" then .error "boom" else .ok respT

/-- A handler that always succeeds. -/
def hdlOk : Message → Except String KafkaProcessRecordResponse :=
  fun _ => .ok respT

/-- A batch manager whose post hook replaces the responses of any batch with
two successful responses. -/
def bmExpand : KafkaBatchManager :=
  { pre_process_records_batch := fun rs => rs
    post_process_records_batch := fun _ _ => [respT, respT] }

/-- A sample consumer configuration with batch size 2. -/
def cfgEx : KafkaConsumerConfig :=
  { group_id := "g", bootstrap_servers := "b", auto_offset_reset := "earliest"
    enable_auto_commit := true, poll_timeout := 1, batch_size := 2
    process_count := 1, checkpoint_freq_in_sec := 60 }

/-- A sample consumer configuration with checkpoint interval 5 seconds. -/
def cfgCk : KafkaConsumerConfig :=
  { group_id := "g", bootstrap_servers := "b", auto_offset_reset := "earliest"
    enable_auto_commit := true, poll_timeout := 1, batch_size := 100
    process_count := 1, checkpoint_freq_in_sec := 5 }

/-- A publish action that always succeeds. -/
def pubOk : DLQEnvelope → PublishOutcome := fun _ => .ok

/-- A publish action that always raises a `KafkaException`. -/
def pubFailK : DLQEnvelope → PublishOutcome := fun _ => .kafkaExc "broker down"

/-- The spec's ordering claim, stated as a proposition: it is NOT the case
that for every batch the i-th result of the parallel map corresponds to the
i-th input record. -/
def resultsOrderNotGuaranteed : Prop :=
  ¬ ∀ (f : Message → Except String KafkaProcessRecordResponse)
      (ms : List Message) (rs : List KafkaProcessRecordResponse),
      poolMap f ms = Except.ok rs →
      rs.length = ms.length ∧
      ∀ (i : Nat) (h1 : i < ms.length) (h2 : i < rs.length),
        f (ms.get ⟨i, h1⟩) = Except.ok (rs.get ⟨i, h2⟩)

/-! Helper lemmas about the metrics dictionary. -/

theorem dictGet_inc_self (m : Metrics) (k : String) (v : Int) :
    dictGet (KafkaMetrics.inc m k v) k = dictGet m k + v := by
  induction m with
  | nil => simp [KafkaMetrics.inc, dictGet]
  | cons e rest ih =>
      obtain ⟨k2, x⟩ := e
      by_cases h : k2 = k
      · simp [KafkaMetrics.inc, dictGet, h]
      · simp [KafkaMetrics.inc, dictGet, h, ih]

theorem dictGet_inc_ne (m : Metrics) (k k2 : String) (v : Int) (h : k2 ≠ k) :
    dictGet (KafkaMetrics.inc m k v) k2 = dictGet m k2 := by
  have hne : ¬ (k = k2) := fun hh => h hh.symm
  induction m with
  | nil => simp [KafkaMetrics.inc, dictGet, hne]
  | cons e rest ih =>
      obtain ⟨k3, x⟩ := e
      by_cases h3 : k3 = k
      · subst h3
        simp [KafkaMetrics.inc, dictGet, hne]
      · simp [KafkaMetrics.inc, dictGet, h3, ih]

theorem dictGet_of_not_mem (m : Metrics) (k : String) (h : k ∉ dictKeys m) :
    dictGet m k = 0 := by
  induction m with
  | nil => rfl
  | cons e rest ih =>
      obtain ⟨k2, x⟩ := e
      simp only [dictKeys, List.map_cons, List.mem_cons] at h
      push_neg at h
      have h1 : ¬ (k2 = k) := fun hh => h.1 hh.symm
      simp only [dictGet]
      rw [if_neg h1]
      exact ih (by simpa [dictKeys] using h.2)

theorem dictCopy_eq (m : Metrics) : dictCopy m = m := by
  induction m with
  | nil => rfl
  | cons e rest ih => simp [dictCopy, ih]

theorem runIncs_monotone (ops : List (String × Int)) :
    ∀ (m : Metrics) (k : String), (∀ op ∈ ops, 0 ≤ op.2) →
      dictGet m k ≤ dictGet (runIncs m ops) k := by
  induction ops with
  | nil => intro m k _; simp [runIncs]
  | cons op rest ih =>
      intro m k hpos
      obtain ⟨k2, v⟩ := op
      have hv : (0 : Int) ≤ v := hpos (k2, v) (List.mem_cons_self _ _)
      have hstep : dictGet m k ≤ dictGet (KafkaMetrics.inc m k2 v) k := by
        by_cases h : k2 = k
        · subst h; rw [dictGet_inc_self]; omega
        · rw [dictGet_inc_ne m k2 k v (fun hh => h hh.symm)]
      have hrest := ih (KafkaMetrics.inc m k2 v) k
        (fun op hop => hpos op (List.mem_cons_of_mem _ hop))
      calc dictGet m k ≤ dictGet (KafkaMetrics.inc m k2 v) k := hstep
        _ ≤ dictGet (runIncs (KafkaMetrics.inc m k2 v) rest) k := hrest

/-! Helper lemmas about the parallel map. -/

theorem poolMap_ordered (f : Message → Except String KafkaProcessRecordResponse) :
    ∀ (ms : List Message) (rs : List KafkaProcessRecordResponse),
      poolMap f ms = Except.ok rs →
      rs.length = ms.length ∧
      ∀ (i : Nat) (h1 : i < ms.length) (h2 : i < rs.length),
        f (ms.get ⟨i, h1⟩) = Except.ok (rs.get ⟨i, h2⟩) := by
  intro ms
  induction ms with
  | nil =>
      intro rs h
      simp only [poolMap] at h
      cases h
      exact ⟨rfl, fun i h1 _ => absurd h1 (by simp)⟩
  | cons m rest ih =>
      intro rs h
      simp only [poolMap] at h
      cases hf : f m with
      | error e => rw [hf] at h; cases h
      | ok resp =>
          rw [hf] at h
          cases hr : poolMap f rest with
          | error e => rw [hr] at h; cases h
          | ok resps =>
              rw [hr] at h
              cases h
              obtain ⟨hlen, hidx⟩ := ih resps hr
              refine ⟨by simp [hlen], ?_⟩
              intro i h1 h2
              match i with
              | 0 => simpa using hf
              | Nat.succ j =>
                  simp only [List.length_cons, Nat.succ_lt_succ_iff] at h1 h2
                  simpa using hidx j h1 h2

theorem poolMap_error_of_mem (f : Message → Except String KafkaProcessRecordResponse)
    (e : String) :
    ∀ (ms : List Message) (m : Message), m ∈ ms → f m = Except.error e →
      ∃ e2, poolMap f ms = Except.error e2 := by
  intro ms
  induction ms with
  | nil => intro m hm; cases hm
  | cons hd rest ih =>
      intro m hm hfm
      rcases List.mem_cons.mp hm with h | h
      · subst h
        exact ⟨e, by simp [poolMap, hfm]⟩
      · cases hf : f hd with
        | error e3 => exact ⟨e3, by simp [poolMap, hf]⟩
        | ok resp =>
            obtain ⟨e2, he2⟩ := ih m h hfm
            exact ⟨e2, by simp [poolMap, hf, he2]⟩

theorem successCount_le (rs : List KafkaProcessRecordResponse) :
    successCount rs ≤ rs.length :=
  List.length_filter_le _ rs

/-! Helper lemmas about batch accumulation. -/

theorem feedAll_shift (N : Nat) :
    ∀ (ms acc : List Message) (ds : List (List Message)),
      feedAll N (acc, ds) ms =
        ((feedAll N (acc, []) ms).1, ds ++ (feedAll N (acc, []) ms).2) := by
  intro ms
  induction ms with
  | nil => intro acc ds; simp [feedAll]
  | cons m rest ih =>
      intro acc ds
      have u : ∀ st, feedAll N st (m :: rest) = feedAll N (feedOne N st m) rest :=
        fun st => rfl
      rw [u, u]
      by_cases h : N ≤ acc.length + 1
      · have e1 : feedOne N (acc, ds) m = ([], ds ++ [acc ++ [m]]) := by
          simp [feedOne, h]
        have e2 : feedOne N (acc, []) m = ([], [acc ++ [m]]) := by
          simp [feedOne, h]
        rw [e1, e2, ih [] (ds ++ [acc ++ [m]]), ih [] [acc ++ [m]]]
        simp
      · have e1 : feedOne N (acc, ds) m = (acc ++ [m], ds) := by
          simp [feedOne, h]
        have e2 : feedOne N (acc, []) m = (acc ++ [m], []) := by
          simp [feedOne, h]
        rw [e1, e2]
        exact ih (acc ++ [m]) ds

theorem feedAll_spec (N : Nat) (hN : 0 < N) :
    ∀ (ms acc : List Message), acc.length < N →
      ((feedAll N (acc, []) ms).2.length = (acc.length + ms.length) / N) ∧
      ((feedAll N (acc, []) ms).1.length = (acc.length + ms.length) % N) ∧
      (∀ d ∈ (feedAll N (acc, []) ms).2, d.length = N) ∧
      ((feedAll N (acc, []) ms).2.flatten ++ (feedAll N (acc, []) ms).1 = acc ++ ms) := by
  intro ms
  induction ms with
  | nil =>
      intro acc hacc
      refine ⟨?_, ?_, ?_, ?_⟩
      · simp [feedAll, Nat.div_eq_of_lt hacc]
      · simp [feedAll, Nat.mod_eq_of_lt hacc]
      · simp [feedAll]
      · simp [feedAll]
  | cons m rest ih =>
      intro acc hacc
      have u : ∀ st, feedAll N st (m :: rest) = feedAll N (feedOne N st m) rest :=
        fun st => rfl
      by_cases h : N ≤ acc.length + 1
      · have hlen : (acc ++ [m]).length = N := by
          simp only [List.length_append, List.length_singleton, List.length_cons, List.length_nil]
          omega
        have e2 : feedOne N (acc, []) m = ([], [acc ++ [m]]) := by
          simp [feedOne, h]
        obtain ⟨ih1, ih2, ih3, ih4⟩ := ih [] hN
        have hshift := feedAll_shift N rest [] [acc ++ [m]]
        have harith : acc.length + (m :: rest).length = rest.length + N := by
          simp only [List.length_cons]
          omega
        refine ⟨?_, ?_, ?_, ?_⟩
        · rw [u, e2, hshift, harith, Nat.add_div_right _ hN]
          simp only [List.length_append, List.length_singleton, List.length_cons, List.length_nil]
          simp only [List.length_nil, Nat.zero_add] at ih1
          omega
        · rw [u, e2, hshift, harith, Nat.add_mod_right]
          simp only [List.length_nil, Nat.zero_add] at ih2
          simpa using ih2
        · rw [u, e2, hshift]
          intro d hd
          rcases List.mem_append.mp hd with hd | hd
          · simp only [List.mem_singleton] at hd
            rw [hd, hlen]
          · exact ih3 d hd
        · rw [u, e2, hshift]
          simp only [List.flatten_append, List.flatten_cons, List.flatten_nil,
            List.append_nil, List.append_assoc]
          have h4 := ih4
          simp only [List.nil_append] at h4
          rw [h4]
          simp
      · have hlt : (acc ++ [m]).length < N := by
          simp only [List.length_append, List.length_singleton, List.length_cons, List.length_nil]
          omega
        have e2 : feedOne N (acc, []) m = (acc ++ [m], []) := by
          simp [feedOne, h]
        obtain ⟨ih1, ih2, ih3, ih4⟩ := ih (acc ++ [m]) hlt
        have harith : (acc ++ [m]).length + rest.length
            = acc.length + (m :: rest).length := by
          simp only [List.length_append, List.length_singleton, List.length_cons, List.length_nil]
          omega
        refine ⟨?_, ?_, ?_, ?_⟩
        · rw [u, e2, ih1, harith]
        · rw [u, e2, ih2, harith]
        · rw [u, e2]; exact ih3
        · rw [u, e2, ih4]
          simp

/-! Projection of the poll loop onto its batching behaviour. -/

theorem pollStep_msg_proj (cfg : KafkaConsumerConfig) (s : LoopState)
    (m : Message) (now : Int) :
    ((pollStep cfg s (.msg m) now).batch, (pollStep cfg s (.msg m) now).dispatches)
        = feedOne cfg.batch_size (s.batch, s.dispatches) m ∧
    dictGet (pollStep cfg s (.msg m) now).metrics "batches_processed"
        + (s.dispatches.length : Int)
      = dictGet s.metrics "batches_processed"
        + (((pollStep cfg s (.msg m) now).dispatches.length : Int)) := by
  have hne : ("batches_processed" : String) ≠ "messages_consumed" := by decide
  by_cases hb : cfg.batch_size ≤ s.batch.length + 1 <;>
    by_cases hc : cfg.checkpoint_freq_in_sec < now - s.last_checkpoint_time <;>
    refine ⟨?_, ?_⟩ <;>
    simp [pollStep, feedOne, hb, hc, dictGet_inc_self,
      dictGet_inc_ne _ _ _ _ hne] <;>
    omega

theorem runLoop_msg_proj (cfg : KafkaConsumerConfig) :
    ∀ (ps : List (Message × Int)) (s : LoopState),
      ((runLoop cfg s (msgEvents ps)).batch,
       (runLoop cfg s (msgEvents ps)).dispatches)
          = feedAll cfg.batch_size (s.batch, s.dispatches) (ps.map Prod.fst) ∧
      dictGet (runLoop cfg s (msgEvents ps)).metrics "batches_processed"
          + (s.dispatches.length : Int)
        = dictGet s.metrics "batches_processed"
          + ((runLoop cfg s (msgEvents ps)).dispatches.length : Int) := by
  intro ps
  induction ps with
  | nil => intro s; simp [runLoop, msgEvents, feedAll]
  | cons p rest ih =>
      intro s
      obtain ⟨m, t⟩ := p
      have u : runLoop cfg s (msgEvents ((m, t) :: rest))
          = runLoop cfg (pollStep cfg s (.msg m) t) (msgEvents rest) := rfl
      obtain ⟨hproj, hmet⟩ := pollStep_msg_proj cfg s m t
      obtain ⟨ihproj, ihmet⟩ := ih (pollStep cfg s (.msg m) t)
      constructor
      · rw [u, ihproj, hproj]
        rfl
      · rw [u]
        have hd : (pollStep cfg s (.msg m) t).dispatches.length
            = (feedOne cfg.batch_size (s.batch, s.dispatches) m).2.length := by
          rw [← hproj]
        omega

/-! Claim theorems. -/

/-- C5: the error-isolation wrapper `kafka_error_handler` returns the wrapped
operation's value unchanged when it returns normally; when it raises a
broker-specific `KafkaException` the wrapper increments `kafka_errors` by 1
and returns no value; when it raises any other exception the wrapper
increments `general_errors` by 1 and returns no value. Its result type is a
plain optional value: no case re-raises to the caller. -/
theorem wrapper_isolates_errors : ∀ (α : Type) (a : α) (m : Metrics),
    kafka_error_handler (PyOutcome.ok (a, m)) = (some a, m) ∧
    (kafka_error_handler (PyOutcome.kafkaExc m : PyOutcome (α × Metrics))).1 = none ∧
    dictGet (kafka_error_handler
      (PyOutcome.kafkaExc m : PyOutcome (α × Metrics))).2 "kafka_errors"
      = dictGet m "kafka_errors" + 1 ∧
    (kafka_error_handler (PyOutcome.exc m : PyOutcome (α × Metrics))).1 = none ∧
    dictGet (kafka_error_handler
      (PyOutcome.exc m : PyOutcome (α × Metrics))).2 "general_errors"
      = dictGet m "general_errors" + 1 := by
  intro α a m
  refine ⟨rfl, rfl, ?_, rfl, ?_⟩ <;>
    simp [kafka_error_handler, dictGet_inc_self]

/-- C10: `KafkaMetrics.get` returns the registry unchanged and yields 0 on a
key that was never incremented without creating an entry (`dict.get`, not
`defaultdict.__getitem__`); `KafkaMetrics.snapshot` returns a copy equal to
the current mapping and leaves the registry unchanged. -/
theorem get_snapshot_no_mutation : ∀ (m : Metrics) (k : String),
    (KafkaMetrics.get m k).2 = m ∧
    (k ∉ dictKeys m → (KafkaMetrics.get m k).1 = 0) ∧
    dictKeys (KafkaMetrics.get m k).2 = dictKeys m ∧
    (KafkaMetrics.snapshot m).2 = m ∧
    (KafkaMetrics.snapshot m).1 = m := by
  intro m k
  exact ⟨rfl, fun h => dictGet_of_not_mem m k h, rfl, rfl, dictCopy_eq m⟩

/-- Witness for C10 at a concrete registry and an absent key. -/
theorem get_snapshot_no_mutation_witness :
    (KafkaMetrics.get [("a", 2)] "b").1 = 0 :=
  (get_snapshot_no_mutation [("a", 2)] "b").2.1 (by decide)

/-- C9 counterexample: `inc` accepts a negative increment, after which the
counter is negative and strictly below its previous value, so counters are
not monotonically non-decreasing under every sequence of `inc` operations. -/
theorem negative_inc_breaks_monotonicity :
    dictGet (runIncs [] [("x", -1)]) "x" < 0 ∧
    dictGet (runIncs [] [("x", -1)]) "x" < dictGet ([] : Metrics) "x" := by
  decide

/-- C9 amended: `inc(key, v)` always yields `get(key) = previous + v`; and
under every sequence of `inc` operations whose increments are non-negative,
every counter is monotonically non-decreasing, hence non-negative over the
registry's lifetime when it starts empty. -/
theorem inc_exact_monotone_nonneg :
    (∀ (m : Metrics) (k : String) (v : Int),
       dictGet (KafkaMetrics.inc m k v) k = dictGet m k + v) ∧
    (∀ (m : Metrics) (ops : List (String × Int)) (k : String),
       (∀ op ∈ ops, 0 ≤ op.2) → dictGet m k ≤ dictGet (runIncs m ops) k) ∧
    (∀ (ops : List (String × Int)) (k : String),
       (∀ op ∈ ops, 0 ≤ op.2) → 0 ≤ dictGet (runIncs [] ops) k) := by
  refine ⟨dictGet_inc_self, ?_, ?_⟩
  · intro m ops k h
    exact runIncs_monotone ops m k h
  · intro ops k h
    have h2 := runIncs_monotone ops [] k h
    simpa [dictGet] using h2

/-- Witness for C9 (amended) at a concrete registry and increment. -/
theorem inc_exact_monotone_nonneg_witness :
    dictGet [("a", 2)] "a" ≤ dictGet (runIncs [("a", 2)] [("a", 3)]) "a" :=
  inc_exact_monotone_nonneg.2.1 [("a", 2)] [("a", 3)] "a" (by decide)

/-- C2 counterexample: a per-record handler that raises for record X aborts
the whole batch: `process_records` propagates the exception instead of
returning the success count 2 for the remaining records Y and Z. -/
theorem raising_handler_aborts_batch :
    process_records none hdlRaise [msgA, msgB, msgC] = Except.error "boom" := by
  rfl

/-- C2 amended: if the per-record handler raises for any record of the
batch, `pool.map` re-raises in the parent and the exception propagates out
of `process_records` (no success count is returned); per-record isolation
holds only when the handler reports failure through the response's status
flag, in which case a batch X, Y, Z with X failed and Y, Z successful yields
success count 2 of 3. -/
theorem handler_exception_propagates :
    (∀ (f : Message → Except String KafkaProcessRecordResponse)
       (ms : List Message) (e : String) (m : Message),
       m ∈ ms → f m = Except.error e →
       ∃ e2, process_records none f ms = Except.error e2) ∧
    (∀ (f : Message → Except String KafkaProcessRecordResponse)
       (X Y Z : Message) (rX rY rZ : KafkaProcessRecordResponse),
       f X = Except.ok rX → f Y = Except.ok rY → f Z = Except.ok rZ →
       rX.status = false → rY.status = true → rZ.status = true →
       process_records none f [X, Y, Z] = Except.ok 2) := by
  constructor
  · intro f ms e m hm hf
    obtain ⟨e2, he2⟩ := poolMap_error_of_mem f e ms m hm hf
    exact ⟨e2, by simp [process_records, he2]⟩
  · intro f X Y Z rX rY rZ hX hY hZ sX sY sZ
    simp [process_records, poolMap, hX, hY, hZ, successCount, sX, sY, sZ]

/-- Witness for C2 (amended) with a status-flag-based handler. -/
theorem handler_exception_propagates_witness :
    process_records none hdl3 [msgA, msgB, msgC] = Except.ok 2 :=
  handler_exception_propagates.2 hdl3 msgA msgB msgC respF respT respT
    rfl rfl rfl rfl rfl rfl

/-- C6 counterexample: a batch manager whose post hook expands the response
list makes the returned success count exceed the batch size K, so the count
is not bounded by K for every configuration. -/
theorem post_hook_can_exceed_batch_size :
    process_records (some bmExpand) hdlOk [msgA] = Except.ok 2 ∧
    ¬ (2 ≤ ([msgA] : List Message).length) :=
  ⟨rfl, by decide⟩

/-- C6 amended: when every handler call succeeds, `process_records` returns
exactly the number of status-true entries of the final (possibly
post-processed) response list, and that count is bounded by the length of
that final list; without a batch manager the final list has one entry per
input record, so the count lies in [0, K]. -/
theorem success_count_matches_true_flags :
    (∀ (f : Message → Except String KafkaProcessRecordResponse)
       (records : List Message) (rs : List KafkaProcessRecordResponse),
       poolMap f records = Except.ok rs →
       process_records none f records = Except.ok (successCount rs) ∧
       successCount rs ≤ records.length) ∧
    (∀ (bm : KafkaBatchManager)
       (f : Message → Except String KafkaProcessRecordResponse)
       (records : List Message) (rs : List KafkaProcessRecordResponse),
       poolMap f (bm.pre_process_records_batch records) = Except.ok rs →
       process_records (some bm) f records
         = Except.ok (successCount
             (bm.post_process_records_batch
               (bm.pre_process_records_batch records) rs)) ∧
       successCount (bm.post_process_records_batch
           (bm.pre_process_records_batch records) rs)
         ≤ (bm.post_process_records_batch
             (bm.pre_process_records_batch records) rs).length) := by
  constructor
  · intro f records rs h
    have hlen := (poolMap_ordered f records rs h).1
    refine ⟨by simp [process_records, h], ?_⟩
    rw [← hlen]
    exact successCount_le rs
  · intro bm f records rs h
    exact ⟨by simp [process_records, h], successCount_le _⟩

/-- Witness for C6 (amended) on a singleton batch with no batch manager. -/
theorem success_count_matches_true_flags_witness :
    process_records none hdlOk [msgA] = Except.ok (successCount [respT]) :=
  (success_count_matches_true_flags.1 hdlOk [msgA] [respT] rfl).1

/-- C8 counterexample: the ordering claim is false — `pool.map` does
guarantee that results come back in input order, so the proposition that
order is not guaranteed is refuted. -/
theorem pool_map_order_refutation : ¬ resultsOrderNotGuaranteed :=
  not_not_intro fun f ms rs h => poolMap_ordered f ms rs h

/-- C8 amended: the parallel map used by `process_records`
(`multiprocessing.Pool.map`) preserves input order: whenever it returns a
result list, the i-th result is the handler's response to the i-th record,
so no re-sort by a record-intrinsic key is needed. -/
theorem pool_map_preserves_order :
    ∀ (f : Message → Except String KafkaProcessRecordResponse)
      (ms : List Message) (rs : List KafkaProcessRecordResponse),
      poolMap f ms = Except.ok rs →
      rs.length = ms.length ∧
      ∀ (i : Nat) (h1 : i < ms.length) (h2 : i < rs.length),
        f (ms.get ⟨i, h1⟩) = Except.ok (rs.get ⟨i, h2⟩) :=
  fun f ms rs h => poolMap_ordered f ms rs h

/-- Witness for C8 (amended) on a concrete singleton batch. -/
theorem pool_map_preserves_order_witness :
    ([respT] : List KafkaProcessRecordResponse).length
      = ([msgA] : List Message).length :=
  (pool_map_preserves_order hdlOk [msgA] [respT] rfl).1

/-- C4 counterexample: when the downstream publish raises, `send_to_dlq`
never reaches the `dlq_messages` increment (it sits after `produce` and
`flush`), so the counter stays at its previous value instead of increasing
by 1; the absorbed failure increments `kafka_errors` instead. -/
theorem dlq_counter_skipped_on_publish_failure :
    dictGet (send_to_dlq [] msgA "timeout" 5 pubFailK).2 "dlq_messages" = 0 ∧
    ¬ (dictGet (send_to_dlq [] msgA "timeout" 5 pubFailK).2 "dlq_messages"
        = dictGet ([] : Metrics) "dlq_messages" + 1) ∧
    (send_to_dlq [] msgA "timeout" 5 pubFailK).1 = none ∧
    dictGet (send_to_dlq [] msgA "timeout" 5 pubFailK).2 "kafka_errors" = 1 := by
  refine ⟨rfl, by decide, rfl, rfl⟩

/-- C4 amended: `send_to_dlq` increments `dlq_messages` by exactly 1 when
the downstream publish succeeds, and leaves `dlq_messages` unchanged when
the publish raises (the error-isolation wrapper absorbs the failure into an
error counter instead). -/
theorem dlq_counter_tracks_publish_outcome :
    ∀ (m : Metrics) (msg : Message) (reason : String) (now : Int)
      (pub : DLQEnvelope → PublishOutcome),
      (pub (mkDLQData msg reason now) = PublishOutcome.ok →
        dictGet (send_to_dlq m msg reason now pub).2 "dlq_messages"
          = dictGet m "dlq_messages" + 1) ∧
      (pub (mkDLQData msg reason now) ≠ PublishOutcome.ok →
        dictGet (send_to_dlq m msg reason now pub).2 "dlq_messages"
          = dictGet m "dlq_messages") := by
  intro m msg reason now pub
  constructor
  · intro h
    simp [send_to_dlq, send_to_dlq_body, h, kafka_error_handler, dictGet_inc_self]
  · intro h
    cases hp : pub (mkDLQData msg reason now) with
    | ok => exact absurd hp h
    | kafkaExc e =>
        have hne : ("dlq_messages" : String) ≠ "kafka_errors" := by decide
        simp [send_to_dlq, send_to_dlq_body, hp, kafka_error_handler,
          dictGet_inc_ne _ _ _ _ hne]
    | exc e =>
        have hne : ("dlq_messages" : String) ≠ "general_errors" := by decide
        simp [send_to_dlq, send_to_dlq_body, hp, kafka_error_handler,
          dictGet_inc_ne _ _ _ _ hne]

/-- Witness for C4 (amended) with a succeeding publish. -/
theorem dlq_counter_tracks_publish_outcome_witness :
    dictGet (send_to_dlq [] msgA "timeout" 5 pubOk).2 "dlq_messages"
      = dictGet ([] : Metrics) "dlq_messages" + 1 :=
  (dlq_counter_tracks_publish_outcome [] msgA "timeout" 5 pubOk).1 rfl

/-- C7 counterexample: a record whose key is empty bytes has its key mapped
to `None` in the envelope (Python truthiness), so the round-trip does not
recover the original key; and an empty reason string yields an empty reason
field. -/
theorem empty_key_and_reason_not_preserved :
    (mkDLQData msgEmptyKey "" 5).key ≠ msgEmptyKey.key ∧
    (mkDLQData msgEmptyKey "" 5).reason = "" :=
  ⟨by decide, rfl⟩

/-- C7 amended: for every record whose key and value are each either absent
or non-empty, and every non-empty reason, the envelope built by
`send_to_dlq` preserves topic, partition, offset, key and value unchanged,
carries the given (non-empty) reason verbatim, and adds the current
timestamp; with a succeeding publish, `send_to_dlq` returns exactly this
envelope. -/
theorem dlq_envelope_round_trip :
    ∀ (R : Message) (reason : String) (now : Int),
      R.key ≠ some "" → R.value ≠ some "" → reason ≠ "" →
      (mkDLQData R reason now).topic = R.topic ∧
      (mkDLQData R reason now).partition = R.partition ∧
      (mkDLQData R reason now).offset = R.offset ∧
      (mkDLQData R reason now).key = R.key ∧
      (mkDLQData R reason now).value = R.value ∧
      (mkDLQData R reason now).reason = reason ∧
      (mkDLQData R reason now).reason ≠ "" ∧
      (mkDLQData R reason now).timestamp = now ∧
      (∀ (m : Metrics) (pub : DLQEnvelope → PublishOutcome),
        pub (mkDLQData R reason now) = PublishOutcome.ok →
        (send_to_dlq m R reason now pub).1 = some (mkDLQData R reason now)) := by
  intro R reason now hk hv hr
  have hkey : (mkDLQData R reason now).key = R.key := by
    cases hR : R.key with
    | none => simp [mkDLQData, pyTruthy, hR]
    | some s =>
        have hs : s ≠ "" := fun h => hk (by rw [hR, h])
        have hb : (s != "") = true := by rwa [bne_iff_ne]
        simp [mkDLQData, pyTruthy, hR, hb]
  have hval : (mkDLQData R reason now).value = R.value := by
    cases hR : R.value with
    | none => simp [mkDLQData, pyTruthy, hR]
    | some s =>
        have hs : s ≠ "" := fun h => hv (by rw [hR, h])
        have hb : (s != "") = true := by rwa [bne_iff_ne]
        simp [mkDLQData, pyTruthy, hR, hb]
  refine ⟨rfl, rfl, rfl, hkey, hval, rfl, hr, rfl, ?_⟩
  intro m pub hpub
  simp [send_to_dlq, send_to_dlq_body, hpub, kafka_error_handler]

/-- Witness for C7 (amended) at a concrete record and reason. -/
theorem dlq_envelope_round_trip_witness :
    (mkDLQData msgA "timeout" 7).key = msgA.key :=
  (dlq_envelope_round_trip msgA "timeout" 7 (by decide) (by decide)
    (by decide)).2.2.2.1

/-- C1 counterexample: with checkpoint interval 5 s and six empty polls over
6 s of wall-clock time (elapsed time since the last commit exceeds the
interval), no commit is issued and the pending batch is empty: the `continue`
on a `None` poll skips the checkpoint check entirely. -/
theorem no_commit_when_poll_returns_nothing :
    (5 : Int) < 6 - (0 : Int) ∧
    (runLoop cfgCk ⟨[], 0, 0, [], []⟩
      [(PollEvent.noMsg, 1), (PollEvent.noMsg, 2), (PollEvent.noMsg, 3),
       (PollEvent.noMsg, 4), (PollEvent.noMsg, 5), (PollEvent.noMsg, 6)]).commits
      = 0 ∧
    (runLoop cfgCk ⟨[], 0, 0, [], []⟩
      [(PollEvent.noMsg, 1), (PollEvent.noMsg, 2), (PollEvent.noMsg, 3),
       (PollEvent.noMsg, 4), (PollEvent.noMsg, 5), (PollEvent.noMsg, 6)]).batch
      = [] :=
  ⟨by decide, rfl, rfl⟩

/-- C1 amended: the checkpoint-commit condition is evaluated only on poll
iterations that successfully consume a message. An empty poll leaves the
state entirely unchanged and an errored message only bumps an error counter
(neither can commit); on a consumed message, if wall-clock time since the
last commit exceeds `checkpoint_freq_in_sec` a commit is issued and the
checkpoint timer resets to `now`, otherwise neither changes. -/
theorem checkpoint_only_on_consumed_message :
    ∀ (cfg : KafkaConsumerConfig) (s : LoopState) (now : Int),
      pollStep cfg s .noMsg now = s ∧
      (pollStep cfg s .errMsg now).commits = s.commits ∧
      (∀ m : Message,
        cfg.checkpoint_freq_in_sec < now - s.last_checkpoint_time →
        (pollStep cfg s (.msg m) now).commits = s.commits + 1 ∧
        (pollStep cfg s (.msg m) now).last_checkpoint_time = now) ∧
      (∀ m : Message,
        ¬ cfg.checkpoint_freq_in_sec < now - s.last_checkpoint_time →
        (pollStep cfg s (.msg m) now).commits = s.commits ∧
        (pollStep cfg s (.msg m) now).last_checkpoint_time
          = s.last_checkpoint_time) := by
  intro cfg s now
  refine ⟨rfl, rfl, ?_, ?_⟩ <;>
    intro m h <;>
    by_cases hb : cfg.batch_size ≤ s.batch.length + 1 <;>
    constructor <;>
    simp [pollStep, hb, h]

/-- Witness for C1 (amended): a consumed message past the interval commits. -/
theorem checkpoint_only_on_consumed_message_witness :
    (pollStep cfgCk ⟨[], 0, 0, [], []⟩ (PollEvent.msg msgA) 6).commits = 0 + 1 :=
  ((checkpoint_only_on_consumed_message cfgCk ⟨[], 0, 0, [], []⟩ 6).2.2.1
    msgA (by decide)).1

/-- C3: for every batch size N ≥ 1 and every sequence of M successfully
polled records, the poll loop dispatches exactly ⌊M/N⌋ batches, each of
exactly N records, their concatenation followed by the pending batch equals
the records in arrival order, the trailing M mod N records stay pending, and
`batches_processed` is incremented once per dispatch. -/
theorem batching_dispatch_floor :
    ∀ (cfg : KafkaConsumerConfig) (ps : List (Message × Int)) (t0 : Int)
      (c0 : Nat) (m0 : Metrics),
      1 ≤ cfg.batch_size →
      ((runLoop cfg ⟨[], t0, c0, [], m0⟩ (msgEvents ps)).dispatches.length
          = ps.length / cfg.batch_size) ∧
      (∀ d ∈ (runLoop cfg ⟨[], t0, c0, [], m0⟩ (msgEvents ps)).dispatches,
          d.length = cfg.batch_size) ∧
      ((runLoop cfg ⟨[], t0, c0, [], m0⟩ (msgEvents ps)).dispatches.flatten
          ++ (runLoop cfg ⟨[], t0, c0, [], m0⟩ (msgEvents ps)).batch
          = ps.map Prod.fst) ∧
      ((runLoop cfg ⟨[], t0, c0, [], m0⟩ (msgEvents ps)).batch.length
          = ps.length % cfg.batch_size) ∧
      (dictGet (runLoop cfg ⟨[], t0, c0, [], m0⟩ (msgEvents ps)).metrics
          "batches_processed"
        = dictGet m0 "batches_processed"
          + ((runLoop cfg ⟨[], t0, c0, [], m0⟩
              (msgEvents ps)).dispatches.length : Int)) := by
  intro cfg ps t0 c0 m0 hN
  obtain ⟨hproj, hmet⟩ := runLoop_msg_proj cfg ps ⟨[], t0, c0, [], m0⟩
  have hb : (runLoop cfg ⟨[], t0, c0, [], m0⟩ (msgEvents ps)).batch
      = (feedAll cfg.batch_size ([], []) (ps.map Prod.fst)).1 :=
    congrArg Prod.fst hproj
  have hd : (runLoop cfg ⟨[], t0, c0, [], m0⟩ (msgEvents ps)).dispatches
      = (feedAll cfg.batch_size ([], []) (ps.map Prod.fst)).2 :=
    congrArg Prod.snd hproj
  obtain ⟨h1, h2, h3, h4⟩ :=
    feedAll_spec cfg.batch_size hN (ps.map Prod.fst) [] hN
  refine ⟨?_, ?_, ?_, ?_, ?_⟩
  · rw [hd, h1]
    simp
  · rw [hd]
    exact h3
  · rw [hd, hb, h4]
    simp
  · rw [hb, h2]
    simp
  · simpa using hmet

/-- Witness for C3: batch size 2 with records A, B, C gives one dispatch. -/
theorem batching_dispatch_floor_witness :
    (runLoop cfgEx ⟨[], 0, 0, [], []⟩
        (msgEvents [(msgA, 0), (msgB, 0), (msgC, 0)])).dispatches.length
      = ([(msgA, 0), (msgB, 0), (msgC, 0)] : List (Message × Int)).length
          / cfgEx.batch_size :=
  (batching_dispatch_floor cfgEx [(msgA, 0), (msgB, 0), (msgC, 0)] 0 0 []
    (by decide)).1

end DLS
